import Mathlib

/-!
Verification model of `invoice_automation_system.py` (invoice segmentation
pipeline).  Pure functions of the source are translated into Lean functions;
the stateful parts (the processor's accumulated invoice list, the filesystem
effects of the stamp compositor) are made explicit as state arguments and
result records.  Page texts are Lean `String`s; the regular-expression
searches of the source are translated into recursive matchers over `List Char`
that implement the exact patterns used by the code.
-/

/-- Python regex `\s` on the characters the pipeline meets (space, tab,
newline, carriage return). -/
def isSpaceChar (c : Char) : Bool :=
  c = ' ' || c = '\t' || c = '\n' || c = '\r'

/-- Numeric value of a decimal digit character. -/
def digitVal (c : Char) : Nat := c.toNat - 48

/-- Value of a digit string, as Python `int` on a digit-only string. -/
def natOfDigits (cs : List Char) : Nat :=
  cs.foldl (fun a c => 10 * a + digitVal c) 0

/-- Python `str.strip()` on a character list. -/
def trimChars (cs : List Char) : List Char :=
  ((cs.dropWhile isSpaceChar).reverse.dropWhile isSpaceChar).reverse

/-- Python `needle in hay` substring test. -/
def containsSub (needle hay : List Char) : Bool :=
  hay.tails.any (fun t => needle.isPrefixOf t)

/-- Python `str.split('-')` on a character list. -/
def splitOnDash : List Char → List (List Char)
  | [] => [[]]
  | c :: cs =>
    if c = '-' then [] :: splitOnDash cs
    else
      match splitOnDash cs with
      | [] => [[c]]
      | g :: gs => (c :: g) :: gs

/-- Python `f"{n:02d}"` for `n < 100` (the only values the date pattern can
produce): tens digit then ones digit. -/
def pad2 (n : Nat) : List Char :=
  [Nat.digitChar (n / 10), Nat.digitChar (n % 10)]

/-!  Invoice-number pattern: `№\s*(\d+(?:-\d+)?)` (`_extract_invoice_info`). -/

/-- Match the tail of the pattern `\s*(\d+(?:-\d+)?)` at the head of `cs`
(the characters right after a `№`), returning the captured group. -/
def matchNumberTail (cs : List Char) : Option (List Char) :=
  let cs1 := cs.dropWhile isSpaceChar
  let ds := cs1.takeWhile Char.isDigit
  if ds.isEmpty then none
  else
    match cs1.drop ds.length with
    | '-' :: rest =>
      let ds2 := rest.takeWhile Char.isDigit
      if ds2.isEmpty then some ds else some (ds ++ '-' :: ds2)
    | _ => some ds

/-- `re.search(r'№\s*(\d+(?:-\d+)?)', text)`: leftmost occurrence of `№`
followed by optional whitespace and digits; the captured group. -/
def searchInvoiceNumber : List Char → Option (List Char)
  | [] => none
  | c :: cs =>
    if c = '№' then
      match matchNumberTail cs with
      | some g => some g
      | none => searchInvoiceNumber cs
    else searchInvoiceNumber cs

/-!  Closing-date pattern: `(\d{4})年(\d{1,2})月(\d{1,2})日締切分`
(`_extract_close_date`). -/

/-- Match `(\d{1,2})` followed by the literal `delim` at the head of `cs`:
two digits are preferred, one accepted (regex backtracking). -/
def matchTwoDigit (cs : List Char) (delim : Char) : Option (Nat × List Char) :=
  match cs with
  | c1 :: c2 :: c3 :: rest =>
    if c1.isDigit && c2.isDigit && c3 = delim then
      some (10 * digitVal c1 + digitVal c2, rest)
    else if c1.isDigit && c2 = delim then some (digitVal c1, c3 :: rest)
    else none
  | [c1, c2] =>
    if c1.isDigit && c2 = delim then some (digitVal c1, []) else none
  | _ => none

/-- Match `(\d{4})年` at the head of `cs`: exactly four digit characters and
the literal marker. -/
def matchYear4 (cs : List Char) : Option (List Char × List Char) :=
  match cs with
  | c1 :: c2 :: c3 :: c4 :: c5 :: rest =>
    if c1.isDigit && c2.isDigit && c3.isDigit && c4.isDigit && c5 = '年' then
      some ([c1, c2, c3, c4], rest)
    else none
  | _ => none

/-- Match the full date pattern at the head of `cs`, returning the year as
its four digit characters and month/day as numbers. -/
def matchCloseDateAt (cs : List Char) : Option (List Char × Nat × Nat) :=
  match matchYear4 cs with
  | none => none
  | some (y, r2) =>
    match matchTwoDigit r2 '月' with
    | none => none
    | some (m, r3) =>
      match matchTwoDigit r3 '日' with
      | none => none
      | some (d, r4) =>
        if r4.take 3 = ['締', '切', '分'] then some (y, m, d) else none

/-- `re.search` of the closing-date pattern: try each start position left to
right. -/
def searchCloseDate : List Char → Option (List Char × Nat × Nat)
  | [] => none
  | c :: cs =>
    match matchCloseDateAt (c :: cs) with
    | some r => some r
    | none => searchCloseDate cs

/-- `_extract_close_date`: `(YYYY-MM-DD, YYMMDD)` when the pattern matches,
`(None, None)` otherwise. -/
def extractCloseDate (text : String) : Option String × Option String :=
  match searchCloseDate text.data with
  | some (y, m, d) =>
    (some (String.mk (y ++ '-' :: pad2 m ++ '-' :: pad2 d)),
     some (String.mk (y.drop 2 ++ pad2 m ++ pad2 d)))
  | none => (none, none)

/-!  Counterparty name: `re.search(r'([^\n]+?)\s*御中', text)` followed by the
two `re.sub` clean-ups and `split('\n')[-1].strip()`
(`_extract_company_name`). -/

/-- Lazy expansion of `[^\n]+?` from one start position: `acc` holds the
characters taken so far; after taking one more non-newline character, accept
if skipping `\s*` reaches the literal `御中` (the skipped run is forced,
since `御` is not whitespace). -/
def companyTry (acc : List Char) : List Char → Option (List Char)
  | [] => none
  | c :: rest =>
    if c = '\n' then none
    else
      let taken := acc ++ [c]
      if ['御', '中'].isPrefixOf (rest.dropWhile isSpaceChar) then some taken
      else companyTry taken rest

/-- Leftmost match of `([^\n]+?)\s*御中`, returning the captured group. -/
def searchCompany : List Char → Option (List Char)
  | [] => none
  | c :: cs =>
    match companyTry [] (c :: cs) with
    | some g => some g
    | none => searchCompany cs

/-- `_extract_company_name`.  The `re.sub(r'〒.*?\n', ...)` step needs a
newline, which the captured group (all non-newline) cannot contain, so it
never rewrites; `re.sub(r'[都道府県].*', '', ..., flags=DOTALL)` keeps the
prefix before the first such character; `split('\n')[-1]` is the identity on
the newline-free remainder. -/
def extractCompanyName (text : String) : String :=
  match searchCompany text.data with
  | some g =>
    let name := trimChars g
    let cut := name.takeWhile
      (fun c => !(c = '都' || c = '道' || c = '府' || c = '県'))
    String.mk (trimChars cut)
  | none => "不明"

/-- `InvoiceInfo` dataclass. -/
structure InvoiceInfo where
  invoice_number : String
  company : String
  pages : List Nat
  close_date_full : Option String := none
  close_date_short : Option String := none
  is_copy : Bool := false
  no_transaction : Bool := false
  is_blank : Bool := false
  deriving Repr, DecidableEq

/-- `_extract_invoice_info`: `None` on empty text or when the invoice-number
pattern is absent, otherwise the populated record. -/
def extractInvoiceInfo (text : String) (pageNum : Nat) : Option InvoiceInfo :=
  if text = "" then none
  else
    match searchInvoiceNumber text.data with
    | none => none
    | some num =>
      some {
        invoice_number := String.mk num
        company := extractCompanyName text
        pages := [pageNum]
        close_date_full := (extractCloseDate text).1
        close_date_short := (extractCloseDate text).2
        is_copy := containsSub "（控）".data text.data
          || containsSub "(控)".data text.data
        no_transaction := containsSub "当月のお取引はございません".data text.data
          || containsSub "当月のお取引".data text.data
        is_blank := (trimChars text.data).length < 100
      }

/-- `invoice_number.split('-')[0]`, the grouping key of `split_pdf`. -/
def baseNumber (s : String) : String :=
  String.mk ((splitOnDash s.data).headD [])

/-!  `split_pdf`: a single forward pass with one open group.  The processor
state is the pair (accumulated `self.invoices`, `current_invoice`). -/

/-- One iteration of the page loop of `split_pdf` on the pair
`(self.invoices, current_invoice)`: extraction gate, the three skip flags,
then open/extend by base invoice number. -/
def stepPage (st : List InvoiceInfo × Option InvoiceInfo) (pr : Nat × String) :
    List InvoiceInfo × Option InvoiceInfo :=
  match extractInvoiceInfo pr.2 pr.1 with
  | none => st
  | some info =>
    if info.is_copy then st
    else if info.no_transaction then st
    else if info.is_blank then st
    else
      match st.2 with
      | none => (st.1, some info)
      | some cur =>
        if baseNumber cur.invoice_number ≠ baseNumber info.invoice_number then
          (st.1 ++ [cur], some info)
        else
          (st.1, some { cur with pages := cur.pages ++ [pr.1] })

/-- Closing of the last open group after the page loop
(`if current_invoice: self.invoices.append(current_invoice)`). -/
def finalizeState (st : List InvoiceInfo × Option InvoiceInfo) :
    List InvoiceInfo :=
  match st.2 with
  | none => st.1
  | some cur => st.1 ++ [cur]

/-- `split_pdf` run on a processor whose `self.invoices` already holds
`prior` (it is never cleared by the method): pages are enumerated from 1,
and the last open group is appended at the end. -/
def splitPdfFrom (prior : List InvoiceInfo) (texts : List String) :
    List InvoiceInfo :=
  finalizeState ((List.enumFrom 1 texts).foldl stepPage (prior, none))

/-- The extraction-plus-skip filter applied to one enumerated page (the body
of the loop of `split_pdf` up to its `continue` statements). -/
def keptFilter (pr : Nat × String) : Option InvoiceInfo :=
  match extractInvoiceInfo pr.2 pr.1 with
  | none => none
  | some info =>
    if info.is_copy || info.no_transaction || info.is_blank then none
    else some info

/-- The records that survive both the extraction gate and the three skip
flags, in page order (the pages visible to grouping). -/
def keptRecords (texts : List String) : List InvoiceInfo :=
  (List.enumFrom 1 texts).filterMap keptFilter

/-- The grouping step restricted to kept records (discarded pages removed):
`stepPage` acts like this on every record it does not ignore. -/
def stepKept (st : List InvoiceInfo × Option InvoiceInfo) (info : InvoiceInfo) :
    List InvoiceInfo × Option InvoiceInfo :=
  match st.2 with
  | none => (st.1, some info)
  | some cur =>
    if baseNumber cur.invoice_number ≠ baseNumber info.invoice_number then
      (st.1 ++ [cur], some info)
    else
      (st.1, some { cur with pages := cur.pages ++ info.pages })

/-- The grouping pass expressed over the kept records alone: `stepPage`
ignores every discarded page, so `split_pdf` equals this fold over
`keptRecords` (proved below). -/
def splitKept (prior : List InvoiceInfo) (recs : List InvoiceInfo) :
    List InvoiceInfo :=
  finalizeState (recs.foldl stepKept (prior, none))

/-!  `_generate_filename` and `FileConfig`. -/

/-- `FileConfig.INVALID_CHARS`: the character class `[\\/:*?"<>|]`. -/
def isInvalidChar (c : Char) : Bool :=
  c = '\\' || c = '/' || c = ':' || c = '*' || c = '?' || c = '"' ||
  c = '<' || c = '>' || c = '|'

/-- `re.sub(FileConfig.INVALID_CHARS, '_', company)`. -/
def safeCompanyName (company : String) : String :=
  String.mk (company.data.map (fun c => if isInvalidChar c then '_' else c))

/-- `_generate_filename`.  Python's `if invoice.close_date_short:` is falsy
for both `None` and the empty string. -/
def generateFilename (invoice : InvoiceInfo) : String :=
  let safeCompany := safeCompanyName invoice.company
  match invoice.close_date_short with
  | some ds =>
    if ds = "" then safeCompany ++ "請求書.pdf"
    else ds ++ safeCompany ++ "請求書.pdf"
  | none => safeCompany ++ "請求書.pdf"

/-!  `SealManager` and `_add_seals_to_pdf`.  The seal store is the set of
loaded image names; pages are abstract identifiers; the possible I/O
exceptions inside the compositor's `try` are made explicit as an optional
failure point, and the result records what the function returned, what was
written to the output path, which overlay temporary files still exist at
return, and whether the missing-stamp warning was emitted. -/

/-- `SealManager.has_required_seals`. -/
def hasRequiredSeals (seals : List String) : Bool :=
  seals.contains "管理者.png" && seals.contains "担当者.png"

/-- Points inside `_add_seals_to_pdf`'s `try` block where an exception can
arise once work has started: while drawing the overlay canvas (after the
named temporary file was created), while merging the overlay onto page one,
and while writing the output PDF. -/
inductive SealFail where
  | atOverlay
  | atMerge
  | atWrite
  deriving Repr, DecidableEq

/-- Observable outcome of `_add_seals_to_pdf`: its boolean return value, the
page sequence written to the output path (`none` when the write did not
happen), the overlay temporary files still existing when it returns, and
whether the missing-stamp warning was logged.  Each written page is paired
with whether the overlay was merged onto it. -/
structure SealOutcome where
  returnValue : Bool
  pagesWritten : Option (List (Nat × Bool))
  tempsRemaining : List Nat
  skippedStamps : Bool
  deriving Repr, DecidableEq

/-- `_add_seals_to_pdf`.  With a mandatory seal missing, all pages are
copied unstamped and the function still returns `True`.  Otherwise the
overlay temporary is created for page one; an exception at any later point
propagates to the `except` branch, which returns `False` without reaching
the clean-up loop, so the temporary survives. -/
def addSealsToPdf (pages : List Nat) (seals : List String)
    (fail : Option SealFail) : SealOutcome :=
  if !seals.contains "管理者.png" || !seals.contains "担当者.png" then
    if fail = some SealFail.atWrite then
      { returnValue := false, pagesWritten := none, tempsRemaining := [],
        skippedStamps := true }
    else
      { returnValue := true,
        pagesWritten := some (pages.map (fun p => (p, false))),
        tempsRemaining := [], skippedStamps := true }
  else
    match pages with
    | [] =>
      if fail = some SealFail.atWrite then
        { returnValue := false, pagesWritten := none, tempsRemaining := [],
          skippedStamps := false }
      else
        { returnValue := true, pagesWritten := some [],
          tempsRemaining := [], skippedStamps := false }
    | p0 :: rest =>
      if fail = some SealFail.atOverlay then
        { returnValue := false, pagesWritten := none, tempsRemaining := [0],
          skippedStamps := false }
      else if fail = some SealFail.atMerge then
        { returnValue := false, pagesWritten := none, tempsRemaining := [0],
          skippedStamps := false }
      else if fail = some SealFail.atWrite then
        { returnValue := false, pagesWritten := none, tempsRemaining := [0],
          skippedStamps := false }
      else
        { returnValue := true,
          pagesWritten := some ((p0, true) :: rest.map (fun p => (p, false))),
          tempsRemaining := [], skippedStamps := false }

/-- Observable outcome of `create_pdf_with_seal`: the returned path (as a
file name), the page sequence at the final path, whether the `temp_`-named
extraction file still exists, and the overlay temporaries left behind by the
compositor. -/
structure CreateOutcome where
  returned : Option String
  finalContent : Option (List (Nat × Bool))
  tempRemains : Bool
  overlayTempsRemaining : List Nat
  deriving Repr, DecidableEq

/-- `create_pdf_with_seal`: the group's pages are written unstamped to
`temp_<filename>`; on compositor success the temporary is unlinked and the
compositor's output sits at the final path, on compositor failure the
temporary is renamed to the final path; either way the final path is
returned. -/
def createPdfWithSeal (invoice : InvoiceInfo) (seals : List String)
    (fail : Option SealFail) : CreateOutcome :=
  let filename := generateFilename invoice
  let extracted := invoice.pages.map (fun p => (p, false))
  let outcome := addSealsToPdf invoice.pages seals fail
  if outcome.returnValue then
    { returned := some filename, finalContent := outcome.pagesWritten,
      tempRemains := false, overlayTempsRemaining := outcome.tempsRemaining }
  else
    { returned := some filename, finalContent := some extracted,
      tempRemains := false, overlayTempsRemaining := outcome.tempsRemaining }

/-!  Output routing inside `InvoiceAutomationSystem.process`: the month
folder is computed once, before the loop, from the first invoice of
`self.pdf_processor.invoices`, and every group is written into that one
directory. -/

/-- The output directory `process` uses: `base/YYYY年M月` (month without
leading zero, via `int(month)`) from the first invoice's `close_date_full`,
or the base directory when there is no first invoice or it has no closing
date. -/
def resolveOutputDir (root : String) (invoices : List InvoiceInfo) : String :=
  match invoices with
  | [] => root
  | first :: _ =>
    match first.close_date_full with
    | none => root
    | some full =>
      match splitOnDash full.data with
      | [y, m, _d] =>
        root ++ "/" ++ String.mk y ++ "年" ++ toString (natOfDigits m) ++ "月"
      | _ => root

/-- The routing aspect of `process`: each invoice of the processor's list is
paired with the directory its PDF is created in (a single directory computed
up front). -/
def processRouting (root : String) (invoices : List InvoiceInfo) :
    List (InvoiceInfo × String) :=
  let dir := resolveOutputDir root invoices
  invoices.map (fun inv => (inv, dir))

/-!  Reading the dates back. -/

/-- Modelled from the spec: re-expansion of the 6-digit short form assuming a
4-digit year in the 2000s — prepend century 20 to the 2-digit year and read
the zero-padded month and day back as numbers. -/
def expandShort (s : String) : String × Nat × Nat :=
  (String.mk ('2' :: '0' :: s.data.take 2),
   natOfDigits ((s.data.drop 2).take 2),
   natOfDigits (s.data.drop 4))

/-- Decomposition of the full `YYYY-MM-DD` form the way the program itself
reads it back (`close_date_full.split('-')` with `int()` on the parts, as in
`process` and `_replace_date_placeholder`). -/
def fullDateParts (full : String) : Option (String × Nat × Nat) :=
  match splitOnDash full.data with
  | [y, m, d] => some (String.mk y, natOfDigits m, natOfDigits d)
  | _ => none

/-!  Helper lemmas: digits and `splitOnDash`. -/

theorem digitVal_lt_ten {c : Char} (h : c.isDigit = true) : digitVal c < 10 := by
  simp [Char.isDigit] at h
  obtain ⟨h1, h2⟩ := h
  have g1 : (48 : UInt32).toNat ≤ c.val.toNat := h1
  have g2 : c.val.toNat ≤ (57 : UInt32).toNat := h2
  have e1 : (48 : UInt32).toNat = 48 := by decide
  have e2 : (57 : UInt32).toNat = 57 := by decide
  show c.val.toNat - 48 < 10
  omega

theorem digitChar_isDigit : ∀ a < 10, (Nat.digitChar a).isDigit = true := by
  decide

theorem digitVal_digitChar : ∀ a < 10, digitVal (Nat.digitChar a) = a := by
  decide

theorem pad2_isDigit {m : Nat} (h : m < 100) :
    ∀ c ∈ pad2 m, c.isDigit = true := by
  intro c hc
  have h1 : m / 10 < 10 := by omega
  have h2 : m % 10 < 10 := by omega
  simp [pad2] at hc
  rcases hc with hc | hc <;> subst hc
  · exact digitChar_isDigit _ h1
  · exact digitChar_isDigit _ h2

theorem natOfDigits_pad2 {m : Nat} (h : m < 100) : natOfDigits (pad2 m) = m := by
  have h1 : m / 10 < 10 := by omega
  have h2 : m % 10 < 10 := by omega
  simp [natOfDigits, pad2, List.foldl, digitVal_digitChar _ h1,
    digitVal_digitChar _ h2]
  omega

theorem isDigit_ne_dash {c : Char} (h : c.isDigit = true) : c ≠ '-' := by
  intro he
  subst he
  simp [Char.isDigit] at h

theorem isDigit_not_invalid {c : Char} (h : c.isDigit = true) :
    isInvalidChar c = false := by
  cases hinv : isInvalidChar c
  · rfl
  · exfalso
    simp only [isInvalidChar, Bool.or_eq_true, decide_eq_true_eq,
      or_assoc] at hinv
    rcases hinv with he | he | he | he | he | he | he | he | he <;>
      (subst he; simp [Char.isDigit] at h)

theorem splitOnDash_ne_nil (cs : List Char) : splitOnDash cs ≠ [] := by
  induction cs with
  | nil => simp [splitOnDash]
  | cons c cs ih =>
    simp only [splitOnDash]
    split
    · simp
    · cases hs : splitOnDash cs with
      | nil => exact absurd hs ih
      | cons g gs => simp

theorem splitOnDash_no_dash {cs : List Char} (h : ∀ c ∈ cs, c ≠ '-') :
    splitOnDash cs = [cs] := by
  induction cs with
  | nil => simp [splitOnDash]
  | cons c cs ih =>
    have hc : c ≠ '-' := h c (by simp)
    have hrest : splitOnDash cs = [cs] := ih (fun x hx => h x (by simp [hx]))
    simp [splitOnDash, hc, hrest]

theorem splitOnDash_append {a rest : List Char} (h : ∀ c ∈ a, c ≠ '-') :
    splitOnDash (a ++ '-' :: rest) = a :: splitOnDash rest := by
  induction a with
  | nil => simp [splitOnDash]
  | cons c a ih =>
    have hc : c ≠ '-' := h c (by simp)
    have hrest := ih (fun x hx => h x (by simp [hx]))
    show splitOnDash (c :: (a ++ '-' :: rest)) = _
    rw [splitOnDash, if_neg hc, hrest]

/-!  Helper lemmas: the closing-date matcher is well formed. -/

theorem matchTwoDigit_wf {cs : List Char} {delim : Char} {m : Nat}
    {rest : List Char} (h : matchTwoDigit cs delim = some (m, rest)) :
    m < 100 := by
  simp only [matchTwoDigit] at h
  split at h
  · split at h
    · rename_i hd
      simp only [Bool.and_eq_true, decide_eq_true_eq] at hd
      obtain ⟨⟨h1, h2⟩, h3⟩ := hd
      have := digitVal_lt_ten h1
      have := digitVal_lt_ten h2
      simp only [Option.some.injEq, Prod.mk.injEq] at h
      omega
    · split at h
      · rename_i hd
        simp only [Bool.and_eq_true, decide_eq_true_eq] at hd
        have := digitVal_lt_ten hd.1
        simp only [Option.some.injEq, Prod.mk.injEq] at h
        omega
      · exact absurd h (by simp)
  · split at h
    · rename_i hd
      simp only [Bool.and_eq_true, decide_eq_true_eq] at hd
      have := digitVal_lt_ten hd.1
      simp only [Option.some.injEq, Prod.mk.injEq] at h
      omega
    · exact absurd h (by simp)
  · exact absurd h (by simp)

theorem matchYear4_wf {cs y rest : List Char}
    (h : matchYear4 cs = some (y, rest)) :
    y.length = 4 ∧ ∀ c ∈ y, c.isDigit = true := by
  simp only [matchYear4] at h
  split at h
  · split at h
    · rename_i c1 c2 c3 c4 c5 r hd
      simp only [Bool.and_eq_true, decide_eq_true_eq] at hd
      obtain ⟨⟨⟨⟨h1, h2⟩, h3⟩, h4⟩, h5⟩ := hd
      simp only [Option.some.injEq, Prod.mk.injEq] at h
      obtain ⟨hy, _⟩ := h
      subst hy
      refine ⟨by simp, ?_⟩
      intro c hc
      simp at hc
      rcases hc with hc | hc | hc | hc <;> subst hc <;> assumption
    · exact absurd h (by simp)
  · exact absurd h (by simp)

theorem matchCloseDateAt_wf {cs y : List Char} {m d : Nat}
    (h : matchCloseDateAt cs = some (y, m, d)) :
    y.length = 4 ∧ (∀ c ∈ y, c.isDigit = true) ∧ m < 100 ∧ d < 100 := by
  unfold matchCloseDateAt at h
  cases hy : matchYear4 cs with
  | none => rw [hy] at h; exact absurd h (by simp)
  | some p =>
    obtain ⟨y0, r2⟩ := p
    rw [hy] at h
    simp only at h
    cases hm : matchTwoDigit r2 '月' with
    | none => rw [hm] at h; exact absurd h (by simp)
    | some q =>
      obtain ⟨m0, r3⟩ := q
      rw [hm] at h
      simp only at h
      cases hd2 : matchTwoDigit r3 '日' with
      | none => rw [hd2] at h; exact absurd h (by simp)
      | some q2 =>
        obtain ⟨d0, r4⟩ := q2
        rw [hd2] at h
        simp only at h
        split at h
        · simp only [Option.some.injEq, Prod.mk.injEq] at h
          obtain ⟨h1, h2, h3⟩ := h
          subst h1 h2 h3
          obtain ⟨hl, hdig⟩ := matchYear4_wf hy
          exact ⟨hl, hdig, matchTwoDigit_wf hm, matchTwoDigit_wf hd2⟩
        · exact absurd h (by simp)

theorem searchCloseDate_wf {cs y : List Char} {m d : Nat}
    (h : searchCloseDate cs = some (y, m, d)) :
    y.length = 4 ∧ (∀ c ∈ y, c.isDigit = true) ∧ m < 100 ∧ d < 100 := by
  induction cs with
  | nil => simp [searchCloseDate] at h
  | cons c cs ih =>
    simp only [searchCloseDate] at h
    split at h
    · rename_i r heq
      cases h
      exact matchCloseDateAt_wf heq
    · exact ih h

/-!  Claim C9: closing-date conversion round-trips. -/

theorem no_dash_of_digits {cs : List Char} (h : ∀ c ∈ cs, c.isDigit = true) :
    ∀ c ∈ cs, c ≠ '-' :=
  fun c hc => isDigit_ne_dash (h c hc)

/-- C9: for every page text matching the closing-date pattern with a 4-digit
year in the 2000s, the 6-digit short form produced alongside the full form,
when re-expanded with century 20, determines the same year, month and day as
the full ISO-like date. -/
theorem close_date_short_roundtrip (text : String) (y : List Char) (m d : Nat)
    (h : searchCloseDate text.data = some (y, m, d))
    (h20 : y.take 2 = ['2', '0']) :
    ∃ full short, extractCloseDate text = (some full, some short) ∧
      expandShort short = (String.mk y, m, d) ∧
      fullDateParts full = some (String.mk y, m, d) := by
  obtain ⟨hlen, hdig, hm, hd⟩ := searchCloseDate_wf h
  have hdl : (y.drop 2).length = 2 := by simp [hlen]
  have hpm : (pad2 m).length = 2 := by simp [pad2]
  have hext : extractCloseDate text
      = (some (String.mk (y ++ '-' :: pad2 m ++ '-' :: pad2 d)),
         some (String.mk (y.drop 2 ++ pad2 m ++ pad2 d))) := by
    unfold extractCloseDate
    rw [h]
  refine ⟨_, _, hext, ?_, ?_⟩
  · unfold expandShort
    have hdata : (String.mk (y.drop 2 ++ pad2 m ++ pad2 d)).data
        = y.drop 2 ++ (pad2 m ++ pad2 d) := by
      simp [List.append_assoc]
    rw [hdata]
    have htake : (y.drop 2 ++ (pad2 m ++ pad2 d)).take 2 = y.drop 2 :=
      List.take_left' hdl
    have hdrop2 : (y.drop 2 ++ (pad2 m ++ pad2 d)).drop 2 = pad2 m ++ pad2 d :=
      List.drop_left' hdl
    have hdrop4 : (y.drop 2 ++ (pad2 m ++ pad2 d)).drop 4 = pad2 d := by
      have : (4 : Nat) = 2 + 2 := by omega
      rw [this, ← List.drop_drop, hdrop2, List.drop_left' hpm]
    rw [htake, hdrop2, hdrop4, List.take_left' hpm,
      natOfDigits_pad2 hm, natOfDigits_pad2 hd]
    have hy : '2' :: '0' :: y.drop 2 = y := by
      have := List.take_append_drop 2 y
      rw [h20] at this
      simpa using this
    rw [hy]
  · unfold fullDateParts
    have hdata : (String.mk (y ++ '-' :: pad2 m ++ '-' :: pad2 d)).data
        = y ++ '-' :: (pad2 m ++ '-' :: pad2 d) := by
      simp [List.append_assoc]
    rw [hdata, splitOnDash_append (no_dash_of_digits hdig),
      splitOnDash_append (no_dash_of_digits (pad2_isDigit hm)),
      splitOnDash_no_dash (no_dash_of_digits (pad2_isDigit hd))]
    simp [natOfDigits_pad2 hm, natOfDigits_pad2 hd]

/-- C9 witness: the round trip evaluated on the concrete text
`2025年6月30日締切分`. -/
theorem close_date_short_roundtrip_witness :
    ∃ full short,
      extractCloseDate "2025年6月30日締切分" = (some full, some short) ∧
      expandShort short = (String.mk ['2', '0', '2', '5'], 6, 30) ∧
      fullDateParts full = some (String.mk ['2', '0', '2', '5'], 6, 30) :=
  close_date_short_roundtrip "2025年6月30日締切分" ['2', '0', '2', '5'] 6 30
    (by decide) (by decide)

/-!  Claim C8: filename sanitization is total and idempotent. -/

theorem safeCompanyName_chars (s : String) :
    ∀ c ∈ (safeCompanyName s).data, isInvalidChar c = false := by
  intro c hc
  simp only [safeCompanyName, List.mem_map] at hc
  obtain ⟨a, _, ha⟩ := hc
  subst ha
  cases h : isInvalidChar a
  · simp [h]
  · simp only [h, if_true]
    decide

theorem shortForm_chars {text : String} {short : String}
    (h : (extractCloseDate text).2 = some short) :
    ∀ c ∈ short.data, c.isDigit = true := by
  unfold extractCloseDate at h
  cases hs : searchCloseDate text.data with
  | none => rw [hs] at h; exact absurd h (by simp)
  | some r =>
    obtain ⟨y, m, d⟩ := r
    rw [hs] at h
    simp only [Option.some.injEq] at h
    subst h
    obtain ⟨hlen, hdig, hm, hd⟩ := searchCloseDate_wf hs
    intro c hc
    simp only [List.mem_append] at hc
    rcases hc with (hc | hc) | hc
    · exact hdig c (List.mem_of_mem_drop hc)
    · exact pad2_isDigit hm c hc
    · exact pad2_isDigit hd c hc

/-- C8: every filename the generator produces from a counterparty name and an
extracted closing date is free of the reserved filesystem characters, each
reserved character of the name having been replaced by an underscore, and
sanitization is idempotent: a name already free of reserved characters is
left unchanged. -/
theorem filename_sanitization (company text num : String) (pages : List Nat) :
    (∀ c ∈ (generateFilename
        { invoice_number := num, company := company, pages := pages,
          close_date_short := (extractCloseDate text).2 }).data,
      isInvalidChar c = false)
    ∧ (∀ s : String, safeCompanyName (safeCompanyName s) = safeCompanyName s)
    ∧ (∀ s : String, (∀ c ∈ s.data, isInvalidChar c = false) →
        safeCompanyName s = s) := by
  refine ⟨?_, ?_, ?_⟩
  · intro c hc
    have hlit : ∀ x ∈ ("請求書.pdf" : String).data, isInvalidChar x = false := by
      decide
    simp only [generateFilename] at hc
    cases hsc : (extractCloseDate text).2 with
    | none =>
      rw [hsc] at hc
      simp only [String.data_append, List.mem_append] at hc
      rcases hc with hc | hc
      · exact safeCompanyName_chars _ c hc
      · exact hlit c hc
    | some short =>
      rw [hsc] at hc
      simp only at hc
      split at hc
      · simp only [String.data_append, List.mem_append] at hc
        rcases hc with hc | hc
        · exact safeCompanyName_chars _ c hc
        · exact hlit c hc
      · simp only [String.data_append, List.mem_append] at hc
        rcases hc with (hc | hc) | hc
        · exact isDigit_not_invalid (shortForm_chars hsc c hc)
        · exact safeCompanyName_chars _ c hc
        · exact hlit c hc
  · intro s
    simp only [safeCompanyName, List.map_map]
    congr 1
    apply List.map_eq_map_iff.mpr
    intro a _
    cases h : isInvalidChar a
    · simp [Function.comp, h]
    · simp [Function.comp, h]
  · intro s hclean
    have : s.data.map (fun c => if isInvalidChar c then '_' else c) = s.data := by
      conv_rhs => rw [← List.map_id s.data]
      apply List.map_eq_map_iff.mpr
      intro a ha
      simp [hclean a ha]
    simp only [safeCompanyName, this]

/-- C8 witness: sanitization evaluated on concrete names. -/
theorem filename_sanitization_witness :
    safeCompanyName "山田商事" = "山田商事"
    ∧ safeCompanyName (safeCompanyName "a/b:c") = safeCompanyName "a/b:c" :=
  ⟨(filename_sanitization "" "" "" []).2.2 "山田商事" (by decide),
   (filename_sanitization "" "" "" []).2.1 "a/b:c"⟩

/-!  Claims C7, C10, C3: the stamp compositor. -/

theorem addSealsToPdf_missing (pages : List Nat) (seals : List String)
    (h : hasRequiredSeals seals = false) :
    addSealsToPdf pages seals none
      = { returnValue := true,
          pagesWritten := some (pages.map (fun p => (p, false))),
          tempsRemaining := [], skippedStamps := true } := by
  have hcond : (!(seals.contains "管理者.png")
      || !(seals.contains "担当者.png")) = true := by
    cases h1 : seals.contains "管理者.png" <;>
      cases h2 : seals.contains "担当者.png" <;>
      simp_all [hasRequiredSeals]
  unfold addSealsToPdf
  rw [if_pos hcond]
  simp

/-- C7: when either mandatory stamp is absent from the stamp lookup, the
compositor writes the page sequence unchanged (every page copied, no overlay
anywhere), emits the missing-stamp warning, returns `True`, and the group's
PDF creation still returns the final path. -/
theorem missing_stamp_passthrough (pages : List Nat) (seals : List String)
    (invoice : InvoiceInfo) (h : hasRequiredSeals seals = false) :
    addSealsToPdf pages seals none
      = { returnValue := true,
          pagesWritten := some (pages.map (fun p => (p, false))),
          tempsRemaining := [], skippedStamps := true }
    ∧ (createPdfWithSeal invoice seals none).returned
      = some (generateFilename invoice) := by
  refine ⟨addSealsToPdf_missing pages seals h, ?_⟩
  simp [createPdfWithSeal, addSealsToPdf_missing invoice.pages seals h]

/-- C7 witness: only the company seal is loaded; the compositor passes the
pages through and the group still succeeds. -/
theorem missing_stamp_passthrough_witness :
    addSealsToPdf [1, 2] ["社印.png"] none
      = { returnValue := true, pagesWritten := some [(1, false), (2, false)],
          tempsRemaining := [], skippedStamps := true }
    ∧ (createPdfWithSeal
        { invoice_number := "1024", company := "山田", pages := [1, 2] }
        ["社印.png"] none).returned = some "山田請求書.pdf" := by
  have h := missing_stamp_passthrough [1, 2] ["社印.png"]
    { invoice_number := "1024", company := "山田", pages := [1, 2] } (by decide)
  exact ⟨h.1, h.2.trans (by decide)⟩

/-- C10: when the compositing helper reports failure, the group's PDF
creation still succeeds: the unstamped extraction is renamed to the final
filename and returned, and no `temp_`-named file survives. -/
theorem overlay_failure_recovery (invoice : InvoiceInfo) (seals : List String)
    (fail : Option SealFail)
    (h : (addSealsToPdf invoice.pages seals fail).returnValue = false) :
    createPdfWithSeal invoice seals fail
      = { returned := some (generateFilename invoice),
          finalContent := some (invoice.pages.map (fun p => (p, false))),
          tempRemains := false,
          overlayTempsRemaining
            := (addSealsToPdf invoice.pages seals fail).tempsRemaining } := by
  simp [createPdfWithSeal, h]

/-- C10 witness: the output write fails with both mandatory stamps present;
the group still gets its unstamped document at the final name. -/
theorem overlay_failure_recovery_witness :
    createPdfWithSeal
        { invoice_number := "1024", company := "山田", pages := [1, 2] }
        ["管理者.png", "担当者.png"] (some SealFail.atWrite)
      = { returned := some "山田請求書.pdf",
          finalContent := some [(1, false), (2, false)],
          tempRemains := false, overlayTempsRemaining := [0] } := by
  have h := overlay_failure_recovery
    { invoice_number := "1024", company := "山田", pages := [1, 2] }
    ["管理者.png", "担当者.png"] (some SealFail.atWrite) (by decide)
  exact h.trans (by decide)

/-- C3 (contradicted by the code): when an exception strikes after the
overlay temporary file was created — here, while writing the output PDF —
`_add_seals_to_pdf` returns `False` from its `except` branch without reaching
the clean-up loop, so a temporary file it created still exists on return. -/
theorem seal_temp_leak_on_failure :
    (addSealsToPdf [1] ["管理者.png", "担当者.png"]
      (some SealFail.atWrite)).returnValue = false
    ∧ (addSealsToPdf [1] ["管理者.png", "担当者.png"]
      (some SealFail.atWrite)).tempsRemaining = [0] := by
  decide

/-!  Claim C2: behaviour of `split_pdf` under re-running. -/

theorem stepPage_shift (done : List InvoiceInfo) (cur : Option InvoiceInfo)
    (p : Nat × String) :
    stepPage (done, cur) p
      = (done ++ (stepPage ([], cur) p).1, (stepPage ([], cur) p).2) := by
  cases hE : extractInvoiceInfo p.2 p.1 with
  | none => simp [stepPage, hE]
  | some info =>
    simp only [stepPage, hE]
    cases cur with
    | none => split_ifs <;> simp
    | some c =>
      by_cases h1 : info.is_copy = true <;>
        by_cases h2 : info.no_transaction = true <;>
        by_cases h3 : info.is_blank = true <;>
        by_cases hb : baseNumber c.invoice_number
          = baseNumber info.invoice_number <;>
        simp [h1, h2, h3, hb]

theorem foldl_stepPage_shift (l : List (Nat × String))
    (done : List InvoiceInfo) (cur : Option InvoiceInfo) :
    l.foldl stepPage (done, cur)
      = (done ++ (l.foldl stepPage ([], cur)).1,
         (l.foldl stepPage ([], cur)).2) := by
  induction l generalizing done cur with
  | nil => simp
  | cons p l ih =>
    simp only [List.foldl_cons]
    rw [stepPage_shift done cur p]
    have he : stepPage ([], cur) p
        = ((stepPage ([], cur) p).1, (stepPage ([], cur) p).2) := rfl
    rw [he, ih (done ++ (stepPage ([], cur) p).1) (stepPage ([], cur) p).2,
      ih (stepPage ([], cur) p).1 (stepPage ([], cur) p).2]
    simp [List.append_assoc]

theorem splitPdfFrom_shift (prior : List InvoiceInfo) (texts : List String) :
    splitPdfFrom prior texts = prior ++ splitPdfFrom [] texts := by
  unfold splitPdfFrom finalizeState
  rw [foldl_stepPage_shift (List.enumFrom 1 texts) prior none]
  cases hY : ((List.enumFrom 1 texts).foldl stepPage ([], none)).2 <;>
    simp [List.append_assoc]

/-- C2 (amended): `split_pdf` is deterministic but not idempotent in
processor state — a run never clears `self.invoices`, it appends the freshly
computed groups after whatever the list already holds, so a second run over
the same input on the same processor leaves two concatenated copies of the
single-run result. -/
theorem split_pdf_rerun_appends (texts : List String) :
    splitPdfFrom (splitPdfFrom [] texts) texts
      = splitPdfFrom [] texts ++ splitPdfFrom [] texts
    ∧ ∀ prior : List InvoiceInfo,
        splitPdfFrom prior texts = prior ++ splitPdfFrom [] texts :=
  ⟨splitPdfFrom_shift _ _, fun prior => splitPdfFrom_shift prior texts⟩

/-- Padding that keeps a page above the 100-character near-blank threshold. -/
def xpad : String := String.mk (List.replicate 100 'x')

/-- One ordinary invoice page. -/
def rerunText : String := "№1024 " ++ xpad

/-- C2 counterexample: running `split_pdf` twice on the same processor over
the same one-page input leaves two groups, not the one group the single run
produces. -/
theorem split_pdf_not_idempotent :
    (splitPdfFrom [] [rerunText]).length = 1
    ∧ (splitPdfFrom (splitPdfFrom [] [rerunText]) [rerunText]).length = 2 := by
  decide

/-!  The grouping pass sees only the kept records. -/

theorem extractInvoiceInfo_pages {t : String} {n : Nat} {info : InvoiceInfo}
    (h : extractInvoiceInfo t n = some info) : info.pages = [n] := by
  unfold extractInvoiceInfo at h
  split at h
  · exact absurd h (by simp)
  · cases hs : searchInvoiceNumber t.data with
    | none => rw [hs] at h; exact absurd h (by simp)
    | some num =>
      rw [hs] at h
      simp only [Option.some.injEq] at h
      rw [← h]

theorem stepPage_eq_stepKept {t : String} {n : Nat} {info : InvoiceInfo}
    (hE : extractInvoiceInfo t n = some info)
    (h1 : info.is_copy = false) (h2 : info.no_transaction = false)
    (h3 : info.is_blank = false)
    (st : List InvoiceInfo × Option InvoiceInfo) :
    stepPage st (n, t) = stepKept st info := by
  have hp := extractInvoiceInfo_pages hE
  obtain ⟨done, cur⟩ := st
  simp only [stepPage, stepKept, hE, h1, h2, h3]
  cases cur with
  | none => simp
  | some c => simp [hp]

theorem stepPage_of_keptFilter_none {t : String} {n : Nat}
    (h : keptFilter (n, t) = none)
    (st : List InvoiceInfo × Option InvoiceInfo) :
    stepPage st (n, t) = st := by
  unfold keptFilter at h
  obtain ⟨done, cur⟩ := st
  cases hE : extractInvoiceInfo t n with
  | none => simp [stepPage, hE]
  | some info =>
    rw [hE] at h
    simp only at h
    split at h
    · rename_i hflag
      simp only [Bool.or_eq_true] at hflag
      simp only [stepPage, hE]
      rcases hflag with (hf | hf) | hf <;> simp [hf]
    · exact absurd h (by simp)

theorem keptFilter_some {t : String} {n : Nat} {info : InvoiceInfo}
    (h : keptFilter (n, t) = some info) :
    extractInvoiceInfo t n = some info ∧ info.is_copy = false
    ∧ info.no_transaction = false ∧ info.is_blank = false := by
  unfold keptFilter at h
  cases hE : extractInvoiceInfo t n with
  | none => rw [hE] at h; exact absurd h (by simp)
  | some info0 =>
    rw [hE] at h
    simp only at h
    split at h
    · exact absurd h (by simp)
    · rename_i hflag
      simp only [Bool.or_eq_true, not_or, Bool.not_eq_true] at hflag
      simp only [Option.some.injEq] at h
      subst h
      exact ⟨rfl, hflag.1.1, hflag.1.2, hflag.2⟩

theorem foldl_enum_kept (texts : List String) (s : Nat)
    (st : List InvoiceInfo × Option InvoiceInfo) :
    (List.enumFrom s texts).foldl stepPage st
      = ((List.enumFrom s texts).filterMap keptFilter).foldl stepKept st := by
  induction texts generalizing s st with
  | nil => rfl
  | cons t ts ih =>
    simp only [List.enumFrom_cons, List.foldl_cons, List.filterMap_cons]
    cases hK : keptFilter (s, t) with
    | none =>
      rw [stepPage_of_keptFilter_none hK st]
      exact ih (s + 1) st
    | some info =>
      obtain ⟨hE, h1, h2, h3⟩ := keptFilter_some hK
      rw [stepPage_eq_stepKept hE h1 h2 h3 st]
      simp only [List.foldl_cons]
      exact ih (s + 1) (stepKept st info)

theorem splitPdfFrom_eq_splitKept (prior : List InvoiceInfo)
    (texts : List String) :
    splitPdfFrom prior texts = splitKept prior (keptRecords texts) := by
  unfold splitPdfFrom splitKept keptRecords
  rw [foldl_enum_kept texts 1 (prior, none)]

/-!  Structural facts about the kept-record grouping fold. -/

theorem foldl_stepKept_fst_mem (recs : List InvoiceInfo)
    (st : List InvoiceInfo × Option InvoiceInfo) {g : InvoiceInfo}
    (hg : g ∈ st.1) : g ∈ (recs.foldl stepKept st).1 := by
  induction recs generalizing st with
  | nil => exact hg
  | cons r recs ih =>
    simp only [List.foldl_cons]
    apply ih
    obtain ⟨done, cur⟩ := st
    cases cur with
    | none => exact hg
    | some c =>
      simp only [stepKept]
      split
      · simp only
        exact List.mem_append_left _ hg
      · exact hg

theorem mem_finalizeState_of_fst {st : List InvoiceInfo × Option InvoiceInfo}
    {g : InvoiceInfo} (hg : g ∈ st.1) : g ∈ finalizeState st := by
  unfold finalizeState
  obtain ⟨done, cur⟩ := st
  cases cur with
  | none => exact hg
  | some c => exact List.mem_append_left _ hg

theorem stepKept_cur_persist (recs : List InvoiceInfo) :
    ∀ (done : List InvoiceInfo) (cur : InvoiceInfo),
    ∃ g ∈ finalizeState (recs.foldl stepKept (done, some cur)),
      ∀ n ∈ cur.pages, n ∈ g.pages := by
  induction recs with
  | nil =>
    intro done cur
    refine ⟨cur, ?_, fun n hn => hn⟩
    unfold finalizeState
    simp
  | cons r recs ih =>
    intro done cur
    simp only [List.foldl_cons, stepKept]
    split
    · obtain ⟨g, hg, hsub⟩ := ih (done ++ [cur]) r
      refine ⟨cur, ?_, fun n hn => hn⟩
      apply mem_finalizeState_of_fst
      apply foldl_stepKept_fst_mem
      simp
    · obtain ⟨g, hg, hsub⟩ := ih done { cur with pages := cur.pages ++ r.pages }
      exact ⟨g, hg, fun n hn => hsub n (by simp [hn])⟩

theorem stepKept_after (st : List InvoiceInfo × Option InvoiceInfo)
    (r : InvoiceInfo) :
    ∃ c, (stepKept st r).2 = some c ∧ (∀ n ∈ r.pages, n ∈ c.pages)
      ∧ baseNumber c.invoice_number = baseNumber r.invoice_number := by
  obtain ⟨done, cur⟩ := st
  cases cur with
  | none => exact ⟨r, rfl, fun n hn => hn, rfl⟩
  | some c =>
    simp only [stepKept]
    split
    · exact ⟨r, rfl, fun n hn => hn, rfl⟩
    · rename_i hne
      rw [not_ne_iff] at hne
      exact ⟨{ c with pages := c.pages ++ r.pages }, rfl,
        fun n hn => by simp [hn], hne⟩

theorem stepKept_extend {st : List InvoiceInfo × Option InvoiceInfo}
    {c1 r : InvoiceInfo} (hc1 : st.2 = some c1)
    (hbase : baseNumber c1.invoice_number = baseNumber r.invoice_number) :
    stepKept st r = (st.1, some { c1 with pages := c1.pages ++ r.pages }) := by
  obtain ⟨done, cur⟩ := st
  cases cur with
  | none => exact absurd hc1 (by simp)
  | some c =>
    simp only at hc1
    injection hc1 with hc1
    subst hc1
    simp only [stepKept]
    rw [if_neg (fun hne => hne hbase)]

/-!  Claim C5: continuity across discarded pages. -/

/-- C5: two records adjacent in the kept sequence (any number of discarded
pages may separate them in the document) that share a base invoice number end
up in the same produced group: some group of the output contains the page
numbers of both.  Discarded pages are invisible to the comparison, so they
neither close the open group nor start a new one. -/
theorem continuity_across_discards (texts : List String)
    (l1 l2 : List InvoiceInfo) (r1 r2 : InvoiceInfo)
    (hk : keptRecords texts = l1 ++ r1 :: r2 :: l2)
    (hb : baseNumber r1.invoice_number = baseNumber r2.invoice_number) :
    ∃ g ∈ splitPdfFrom [] texts,
      (∀ n ∈ r1.pages, n ∈ g.pages) ∧ ∀ n ∈ r2.pages, n ∈ g.pages := by
  rw [splitPdfFrom_eq_splitKept, hk]
  unfold splitKept
  rw [List.foldl_append]
  simp only [List.foldl_cons]
  obtain ⟨c1, hc1, hr1, hb1⟩ :=
    stepKept_after (l1.foldl stepKept ([], none)) r1
  have hbase : baseNumber c1.invoice_number = baseNumber r2.invoice_number :=
    hb1.trans hb
  rw [stepKept_extend hc1 hbase]
  obtain ⟨g, hg, hsub⟩ := stepKept_cur_persist l2
    (stepKept (l1.foldl stepKept ([], none)) r1).1
    { c1 with pages := c1.pages ++ r2.pages }
  refine ⟨g, hg, fun n hn => hsub n ?_, fun n hn => hsub n ?_⟩
  · simp [hr1 n hn]
  · simp [hn]

/-- A normal page of invoice `№1024`. -/
def c5Text1 : String := "№1024 " ++ xpad

/-- A copy-marked page of the same invoice, discarded by the segmenter. -/
def c5Text2 : String := "№1024 （控）" ++ xpad

/-- The continuation page `№1024-2` after the discarded page. -/
def c5Text3 : String := "№1024-2 " ++ xpad

/-- The kept record of page 1. -/
def c5Rec1 : InvoiceInfo :=
  { invoice_number := "1024", company := "不明", pages := [1] }

/-- The kept record of page 3. -/
def c5Rec2 : InvoiceInfo :=
  { invoice_number := "1024-2", company := "不明", pages := [3] }

/-- C5 witness: with a copy page sandwiched between pages of base `1024`,
pages 1 and 3 land in the same group. -/
theorem continuity_across_discards_witness :
    ∃ g ∈ splitPdfFrom [] [c5Text1, c5Text2, c5Text3],
      (∀ n ∈ c5Rec1.pages, n ∈ g.pages) ∧ ∀ n ∈ c5Rec2.pages, n ∈ g.pages :=
  continuity_across_discards [c5Text1, c5Text2, c5Text3] [] [] c5Rec1 c5Rec2
    (by decide) (by decide)

/-!  Claim C4: what invoice number a group stores. -/

/-- All fields of a group except its page list: the identity a group
inherits wholesale from the record that opened it (`current_invoice =
invoice_info`), never overwritten by later pages. -/
def sameHeader (g r : InvoiceInfo) : Prop :=
  g.invoice_number = r.invoice_number ∧ g.company = r.company
  ∧ g.close_date_full = r.close_date_full
  ∧ g.close_date_short = r.close_date_short
  ∧ g.is_copy = r.is_copy ∧ g.no_transaction = r.no_transaction
  ∧ g.is_blank = r.is_blank

theorem sameHeader_refl (g : InvoiceInfo) : sameHeader g g :=
  ⟨rfl, rfl, rfl, rfl, rfl, rfl, rfl⟩

theorem splitKept_provenance (recs : List InvoiceInfo) :
    ∀ (done : List InvoiceInfo) (cur : Option InvoiceInfo) (g : InvoiceInfo),
    g ∈ finalizeState (recs.foldl stepKept (done, cur)) →
    g ∈ done
    ∨ (∃ c, cur = some c ∧ sameHeader g c
        ∧ ∃ rest : List Nat, g.pages = c.pages ++ rest)
    ∨ ∃ r ∈ recs, sameHeader g r
        ∧ ∃ rest : List Nat, g.pages = r.pages ++ rest := by
  induction recs with
  | nil =>
    intro done cur g hg
    unfold finalizeState at hg
    cases cur with
    | none => exact Or.inl hg
    | some c =>
      have hg2 : g ∈ done ++ [c] := hg
      rcases List.mem_append.mp hg2 with h | h
      · exact Or.inl h
      · simp only [List.mem_singleton] at h
        subst h
        exact Or.inr (Or.inl ⟨g, rfl, sameHeader_refl g, [], by simp⟩)
  | cons r recs ih =>
    intro done cur g hg
    simp only [List.foldl_cons] at hg
    cases cur with
    | none =>
      rcases ih done (some r) g hg with
        h | ⟨c, hc, hh, rest, hp⟩ | ⟨r2, hr2, hh, rest, hp⟩
      · exact Or.inl h
      · injection hc with hc
        subst hc
        exact Or.inr (Or.inr ⟨r, by simp, hh, rest, hp⟩)
      · exact Or.inr (Or.inr ⟨r2, by simp [hr2], hh, rest, hp⟩)
    | some c =>
      by_cases hb : baseNumber c.invoice_number ≠ baseNumber r.invoice_number
      · have hstep : stepKept (done, some c) r = (done ++ [c], some r) := by
          simp only [stepKept]
          rw [if_pos hb]
        rw [hstep] at hg
        rcases ih (done ++ [c]) (some r) g hg with
          h | ⟨c2, hc2, hh, rest, hp⟩ | ⟨r2, hr2, hh, rest, hp⟩
        · rcases List.mem_append.mp h with h | h
          · exact Or.inl h
          · simp only [List.mem_singleton] at h
            subst h
            exact Or.inr (Or.inl ⟨g, rfl, sameHeader_refl g, [], by simp⟩)
        · injection hc2 with hc2
          subst hc2
          exact Or.inr (Or.inr ⟨r, by simp, hh, rest, hp⟩)
        · exact Or.inr (Or.inr ⟨r2, by simp [hr2], hh, rest, hp⟩)
      · rw [not_ne_iff] at hb
        have hstep : stepKept (done, some c) r
            = (done, some { c with pages := c.pages ++ r.pages }) :=
          stepKept_extend rfl hb
        rw [hstep] at hg
        rcases ih done (some { c with pages := c.pages ++ r.pages }) g hg with
          h | ⟨c2, hc2, hh, rest, hp⟩ | ⟨r2, hr2, hh, rest, hp⟩
        · exact Or.inl h
        · injection hc2 with hc2
          subst hc2
          have hh2 : sameHeader g c := hh
          have hp2 : g.pages = c.pages ++ (r.pages ++ rest) := by
            rw [hp]
            simp [List.append_assoc]
          exact Or.inr (Or.inl ⟨c, rfl, hh2, r.pages ++ rest, hp2⟩)
        · exact Or.inr (Or.inr ⟨r2, by simp [hr2], hh, rest, hp⟩)

/-- C4 (amended): the invoice number an `InvoiceGroup` stores is the full
invoice number of the kept page that opened the group — the hyphenated
suffix is not stripped there, so it equals the base invoice number only when
the opening page carries no suffix; only the grouping comparison uses the
base.  The opening record is pinned as the one whose page list is the
initial segment of the group's page list (each kept record's page list is
the singleton of its own page number, so `r` below is the record of the
group's first page): its invoice number, counterparty name and closing
dates are stored unchanged, first-page-wins, never overwritten by later
contributing pages. -/
theorem group_number_provenance (texts : List String) (g : InvoiceInfo)
    (hg : g ∈ splitPdfFrom [] texts) :
    ∃ r ∈ keptRecords texts,
      g.invoice_number = r.invoice_number ∧ g.company = r.company
      ∧ g.close_date_full = r.close_date_full
      ∧ g.close_date_short = r.close_date_short
      ∧ ∃ rest : List Nat, g.pages = r.pages ++ rest := by
  rw [splitPdfFrom_eq_splitKept] at hg
  unfold splitKept at hg
  rcases splitKept_provenance (keptRecords texts) [] none g hg with
    h | ⟨c, hc, -⟩ | ⟨r, hr, hh, rest, hp⟩
  · exact absurd h (by simp)
  · exact absurd hc (by simp)
  · exact ⟨r, hr, hh.1, hh.2.1, hh.2.2.1, hh.2.2.2.1, rest, hp⟩

/-- A page whose invoice number carries a hyphenated suffix and which opens
its group (no unsuffixed page of the same base precedes it). -/
def c4Text : String := "№1024-2 " ++ xpad

/-- The single group the segmenter produces from `c4Text`. -/
def c4Group : InvoiceInfo :=
  { invoice_number := "1024-2", company := "不明", pages := [1] }

/-- C4 counterexample: the group produced from the suffixed opening page
stores `1024-2`, which still contains the hyphenated suffix and differs from
the base invoice number `1024` the claim requires. -/
theorem group_number_not_base :
    (splitPdfFrom [] [c4Text]).map (fun g => g.invoice_number) = ["1024-2"]
    ∧ baseNumber "1024-2" = "1024"
    ∧ ("1024-2" : String) ≠ "1024" := by
  decide

/-- An unsuffixed page of base `1024` that opens a two-page group whose
continuation page is the suffixed `c4Text`. -/
def c4TextB : String := "№1024 " ++ xpad

/-- The two-page group produced from `[c4TextB, c4Text]`: it keeps the
opening page's number `1024`, not the last page's `1024-2`. -/
def c4GroupB : InvoiceInfo :=
  { invoice_number := "1024", company := "不明", pages := [1, 2] }

/-- C4 witness (amended claim): on the two-page document the provenance
theorem forces the contributing record to be the opener (its page list `[1]`
is the initial segment of the group's `[1, 2]`), whose number `1024` the
group stores — not the `1024-2` of the last contributing page. -/
theorem group_number_provenance_witness :
    ∃ r ∈ keptRecords [c4TextB, c4Text],
      c4GroupB.invoice_number = r.invoice_number
      ∧ c4GroupB.company = r.company
      ∧ c4GroupB.close_date_full = r.close_date_full
      ∧ c4GroupB.close_date_short = r.close_date_short
      ∧ ∃ rest : List Nat, c4GroupB.pages = r.pages ++ rest :=
  group_number_provenance [c4TextB, c4Text] c4GroupB (by decide)

/-!  Claim C6: pages without an invoice number are invisible. -/

theorem splitPdf_pages_provenance (l : List (Nat × String)) :
    ∀ (st : List InvoiceInfo × Option InvoiceInfo) (g : InvoiceInfo) (n : Nat),
    g ∈ finalizeState (l.foldl stepPage st) → n ∈ g.pages →
    (∃ g0, (g0 ∈ st.1 ∨ st.2 = some g0) ∧ n ∈ g0.pages)
    ∨ ∃ p ∈ l, p.1 = n ∧ ∃ info, extractInvoiceInfo p.2 p.1 = some info := by
  induction l with
  | nil =>
    intro st g n hg hn
    left
    unfold finalizeState at hg
    obtain ⟨done, cur⟩ := st
    cases cur with
    | none => exact ⟨g, Or.inl hg, hn⟩
    | some c =>
      have hg2 : g ∈ done ++ [c] := hg
      rcases List.mem_append.mp hg2 with h | h
      · exact ⟨g, Or.inl h, hn⟩
      · simp only [List.mem_singleton] at h
        exact ⟨c, Or.inr rfl, by rw [← h]; exact hn⟩
  | cons p l ih =>
    intro st g n hg hn
    simp only [List.foldl_cons] at hg
    rcases ih (stepPage st p) g n hg hn with ⟨g0, hg0, hn0⟩ | ⟨q, hq, hq1, hq2⟩
    · obtain ⟨pn, pt⟩ := p
      cases hK : keptFilter (pn, pt) with
      | none =>
        rw [stepPage_of_keptFilter_none hK st] at hg0
        exact Or.inl ⟨g0, hg0, hn0⟩
      | some info =>
        obtain ⟨hE, f1, f2, f3⟩ := keptFilter_some hK
        have hp := extractInvoiceInfo_pages hE
        rw [stepPage_eq_stepKept hE f1 f2 f3 st] at hg0
        obtain ⟨done, cur⟩ := st
        cases cur with
        | none =>
          rcases hg0 with h | h
          · exact Or.inl ⟨g0, Or.inl h, hn0⟩
          · injection h with h
            subst h
            rw [hp] at hn0
            simp only [List.mem_singleton] at hn0
            exact Or.inr ⟨(pn, pt), by simp, hn0.symm, info, hE⟩
        | some c =>
          by_cases hb : baseNumber c.invoice_number
              ≠ baseNumber info.invoice_number
          · have hstep : stepKept (done, some c) info
                = (done ++ [c], some info) := by
              simp only [stepKept]
              rw [if_pos hb]
            rw [hstep] at hg0
            rcases hg0 with h | h
            · rcases List.mem_append.mp h with h | h
              · exact Or.inl ⟨g0, Or.inl h, hn0⟩
              · simp only [List.mem_singleton] at h
                subst h
                exact Or.inl ⟨g0, Or.inr rfl, hn0⟩
            · injection h with h
              subst h
              rw [hp] at hn0
              simp only [List.mem_singleton] at hn0
              exact Or.inr ⟨(pn, pt), by simp, hn0.symm, info, hE⟩
          · rw [not_ne_iff] at hb
            rw [stepKept_extend rfl hb] at hg0
            rcases hg0 with h | h
            · exact Or.inl ⟨g0, Or.inl h, hn0⟩
            · injection h with h
              subst h
              simp only [List.mem_append] at hn0
              rcases hn0 with hn0 | hn0
              · exact Or.inl ⟨c, Or.inr rfl, hn0⟩
              · rw [hp] at hn0
                simp only [List.mem_singleton] at hn0
                exact Or.inr ⟨(pn, pt), by simp, hn0.symm, info, hE⟩
    · exact Or.inr ⟨q, List.mem_cons_of_mem _ hq, hq1, hq2⟩

/-- C6: a page whose text is empty or carries no invoice-number pattern
yields no record (`_extract_invoice_info` returns `None`), and its page
number appears in no produced group's page list. -/
theorem extraction_exclusion (texts : List String) :
    (∀ (text : String) (n : Nat),
      text = "" ∨ searchInvoiceNumber text.data = none →
      extractInvoiceInfo text n = none)
    ∧ ∀ (k : Nat) (hk : k < texts.length),
        extractInvoiceInfo texts[k] (k + 1) = none →
        ∀ g ∈ splitPdfFrom [] texts, (k + 1) ∉ g.pages := by
  constructor
  · intro text n h
    rcases h with h | h
    · simp [extractInvoiceInfo, h]
    · by_cases ht : text = "" <;> simp [extractInvoiceInfo, ht, h]
  · intro k hk hnone g hg hmem
    have hprov := splitPdf_pages_provenance (List.enumFrom 1 texts)
      ([], none) g (k + 1) hg hmem
    rcases hprov with ⟨g0, hg0, -⟩ | ⟨p, hp, hpn, info, hinfo⟩
    · rcases hg0 with h | h
      · simp at h
      · exact absurd h (by simp)
    · obtain ⟨pn, pt⟩ := p
      simp only at hpn hinfo
      subst hpn
      have hp2 : (k + 1, pt) ∈ List.enumFrom 1 texts := hp
      obtain ⟨hj, hlt, hx⟩ := List.mem_enumFrom hp2
      have hx2 : pt = texts[k] := hx
      rw [hx2] at hinfo
      exact absurd (hnone.symm.trans hinfo) (by simp)

/-- An ordinary invoice page used alongside an empty page. -/
def c6Text : String := "№1025 " ++ xpad

/-- C6 witness: an empty first page yields no record and page number 1
appears in no group of the two-page document. -/
theorem extraction_exclusion_witness :
    extractInvoiceInfo "" 1 = none
    ∧ ∀ g ∈ splitPdfFrom [] ["", c6Text], 1 ∉ g.pages :=
  ⟨(extraction_exclusion ["", c6Text]).1 "" 1 (Or.inl rfl),
   (extraction_exclusion ["", c6Text]).2 0 (by decide) (by decide)⟩

/-!  Claim C1: destination folder resolution in `process`. -/

/-- First page: invoice `№1001`, no closing date anywhere in the text. -/
def c1TextA : String := "№1001 " ++ xpad

/-- Second page: invoice `№1002` with closing date 2025-06-30. -/
def c1TextB : String := "№1002 2025年6月30日締切分 " ++ xpad

set_option maxRecDepth 4000 in
/-- C1 counterexample: the second produced group carries closing date
2025-06-30, yet its document is routed to the bare root `R` — not to
`R/2025年6月` as per-group resolution would require — because `process`
derives the folder only from the first group, which has no closing date. -/
theorem folder_not_per_group :
    (processRouting "R" (splitPdfFrom [] [c1TextA, c1TextB])).map Prod.snd
      = ["R", "R"]
    ∧ (splitPdfFrom [] [c1TextA, c1TextB]).map (fun g => g.close_date_full)
      = [none, some "2025-06-30"]
    ∧ ("R" : String) ≠ "R/2025年6月" := by
  decide

/-- C1 (amended): `process` resolves one destination folder for the whole
batch from the first produced group's closing date — `root/<year>年<month>月`
(four-digit year, month without leading zero) when the first group has a
closing date, the storage root directly when it has none — and every group's
document, whatever that group's own closing date, is routed to that single
folder. -/
theorem resolveOutputDir_eq (root : String) (first : InvoiceInfo)
    (rest : List InvoiceInfo) (full : String)
    (hfull : first.close_date_full = some full)
    (y m2 d2 : List Char) (hsplit : splitOnDash full.data = [y, m2, d2]) :
    resolveOutputDir root (first :: rest)
      = root ++ "/" ++ String.mk y ++ "年"
        ++ toString (natOfDigits m2) ++ "月" := by
  have h1 : resolveOutputDir root (first :: rest)
      = match splitOnDash full.data with
        | [y2, m3, _d3] =>
          root ++ "/" ++ String.mk y2 ++ "年"
            ++ toString (natOfDigits m3) ++ "月"
        | _ => root := by
    rw [show resolveOutputDir root (first :: rest)
        = (match first.close_date_full with
           | none => root
           | some full2 =>
             match splitOnDash full2.data with
             | [y2, m3, _d3] =>
               root ++ "/" ++ String.mk y2 ++ "年"
                 ++ toString (natOfDigits m3) ++ "月"
             | _ => root) from rfl, hfull]
  rw [h1, hsplit]

theorem output_dir_from_first_group (root : String) (first : InvoiceInfo)
    (rest : List InvoiceInfo) :
    (first.close_date_full = none →
      ∀ pr ∈ processRouting root (first :: rest), pr.2 = root)
    ∧ ∀ (text : String) (y : List Char) (m d : Nat),
        searchCloseDate text.data = some (y, m, d) →
        first.close_date_full = (extractCloseDate text).1 →
        ∀ pr ∈ processRouting root (first :: rest),
          pr.2 = root ++ "/" ++ String.mk y ++ "年" ++ toString m ++ "月" := by
  have hdir : ∀ pr ∈ processRouting root (first :: rest),
      pr.2 = resolveOutputDir root (first :: rest) := by
    intro pr hpr
    simp only [processRouting, List.mem_map] at hpr
    obtain ⟨inv, -, h⟩ := hpr
    rw [← h]
  constructor
  · intro h0 pr hpr
    rw [hdir pr hpr]
    simp [resolveOutputDir, h0]
  · intro text y m d hs hfull pr hpr
    rw [hdir pr hpr]
    obtain ⟨hlen, hdig, hm, hd⟩ := searchCloseDate_wf hs
    have hext : (extractCloseDate text).1
        = some (String.mk (y ++ '-' :: pad2 m ++ '-' :: pad2 d)) := by
      unfold extractCloseDate
      rw [hs]
    rw [hext] at hfull
    have hsplit : splitOnDash
        (String.mk (y ++ '-' :: pad2 m ++ '-' :: pad2 d)).data
        = [y, pad2 m, pad2 d] := by
      have hdata : (String.mk (y ++ '-' :: pad2 m ++ '-' :: pad2 d)).data
          = y ++ '-' :: (pad2 m ++ '-' :: pad2 d) := by
        simp [List.append_assoc]
      rw [hdata, splitOnDash_append (no_dash_of_digits hdig),
        splitOnDash_append (no_dash_of_digits (pad2_isDigit hm)),
        splitOnDash_no_dash (no_dash_of_digits (pad2_isDigit hd))]
    rw [resolveOutputDir_eq root first rest _ hfull y (pad2 m) (pad2 d) hsplit,
      natOfDigits_pad2 hm]

/-- A group as produced from a page with closing date 2025-06-30. -/
def c1Invoice : InvoiceInfo :=
  { invoice_number := "1002", company := "不明", pages := [1],
    close_date_full := some "2025-06-30", close_date_short := some "250630" }

/-- C1 witness (amended claim): a batch whose first group closes on
2025-06-30 routes to `R/2025年6月`. -/
theorem output_dir_from_first_group_witness :
    (processRouting "R" [c1Invoice]).map Prod.snd = ["R/2025年6月"] := by
  have h := (output_dir_from_first_group "R" c1Invoice []).2
    "2025年6月30日締切分" ['2', '0', '2', '5'] 6 30 (by decide) (by decide)
  have h2 := h (c1Invoice, resolveOutputDir "R" [c1Invoice])
    (by simp [processRouting])
  simp only [processRouting, List.map_cons, List.map_nil]
  rw [show (c1Invoice, resolveOutputDir "R" [c1Invoice]).2
      = resolveOutputDir "R" [c1Invoice] from rfl] at h2
  rw [h2]
  decide
